import Mathlib

/-!
Shallow embedding of the iFit BLE application protocol implementation
(`ifit/client/protocol.py`, `ifit/client/_client.py`,
`ifit/interceptor/_discovery.py`, `ifit/ftms/_server.py`) together with
theorems settling the specification claims about it.

Bytes are modelled as `Nat` (with `% 256` exactly where the source masks),
byte strings as `List Nat`, and fallible code paths (Python exceptions)
as `Option` or `Except`.
-/

namespace IFit

/-! ## Little-endian integer codecs (`int.from_bytes` / `int.to_bytes`). -/

/-- Python `int.from_bytes(bytes, "little")`: least significant byte first.
An empty byte string decodes to 0, matching Python. -/
def fromLEBytes : List Nat → Nat
  | [] => 0
  | b :: rest => b + 256 * fromLEBytes rest

/-- Python `value.to_bytes(size, "little")` for `0 ≤ value < 256^size`. -/
def toLEBytes : Nat → Nat → List Nat
  | 0, _ => []
  | size + 1, value => value % 256 :: toLEBytes size (value / 256)

def build_request (equipment command : Nat) (payload : List Nat) : Option (List Nat) :=
  let length := payload.length + 4
  if equipment ≤ 255 ∧ command ≤ 255 ∧ length ≤ 255 ∧ ∀ b ∈ payload, b ≤ 255 then
    some ([2, 4, 2, length, equipment, length, command] ++ payload ++
      [(equipment + length + command + payload.sum) % 256])
  else none

/-- C1: for byte-valued equipment and command and a payload that fits the
single length byte, `build_request` returns a frame of length
`len(payload) + 8` with prefix `02 04 02`, the length `len(payload) + 4` at
offsets 3 and 5, equipment at offset 4, command at offset 6, the payload at
offsets `7..-2`, and the masked checksum as the final byte. -/
theorem build_request_frame_layout (e c : Nat) (p : List Nat)
    (he : e ≤ 255) (hc : c ≤ 255) (hp : ∀ b ∈ p, b ≤ 255) (hlen : p.length ≤ 251) :
    ∃ F, build_request e c p = some F ∧
      F.length = p.length + 8 ∧
      F.take 3 = [2, 4, 2] ∧
      F.get? 3 = some (p.length + 4) ∧
      F.get? 5 = some (p.length + 4) ∧
      F.get? 4 = some e ∧
      F.get? 6 = some c ∧
      (F.drop 7).take p.length = p ∧
      F.getLast? = some ((e + (p.length + 4) + c + p.sum) % 256) := by
  refine ⟨[2, 4, 2, p.length + 4, e, p.length + 4, c] ++ p ++
    [(e + (p.length + 4) + c + p.sum) % 256], ?_, ?_, ?_, ?_, ?_, ?_, ?_, ?_, ?_⟩
  · simp only [build_request]
    rw [if_pos]
    exact ⟨he, hc, by omega, hp⟩
  · simp
  · rfl
  · rfl
  · rfl
  · rfl
  · rfl
  · rw [List.append_assoc, List.drop_append_of_le_length (by simp)]
    simp [List.take_append_of_le_length]
  · exact List.getLast?_concat _

/-- Witness for C1 at a concrete input. -/
theorem build_request_frame_layout_witness :
    ∃ F, build_request 4 0x90 [7, 1] = some F ∧
      F.length = 2 + 8 ∧
      F.take 3 = [2, 4, 2] ∧
      F.get? 3 = some (2 + 4) ∧
      F.get? 5 = some (2 + 4) ∧
      F.get? 4 = some 4 ∧
      F.get? 6 = some 0x90 ∧
      (F.drop 7).take 2 = [7, 1] ∧
      F.getLast? = some ((4 + (2 + 4) + 0x90 + [7, 1].sum) % 256) :=
  build_request_frame_layout 4 0x90 [7, 1] (by norm_num) (by norm_num)
    (by intro b hb; fin_cases hb <;> norm_num) (by norm_num)

/-- C2 counterexample: the claimed frame ending in checksum byte `0xC0` is
not what `build_request` produces for TREADMILL (4), ENABLE (0x90) and
payload `0701625C00E43A16`: the sum `0x04 + 0x0C + 0x90 + Σ payload` is
`0x29A`, whose low byte is `0x9A`, not `0xC0`. -/
theorem build_request_enable_example_checksum_not_C0 :
    build_request 4 0x90 [0x07, 0x01, 0x62, 0x5C, 0x00, 0xE4, 0x3A, 0x16] ≠
      some [0x02, 0x04, 0x02, 0x0C, 0x04, 0x0C, 0x90,
            0x07, 0x01, 0x62, 0x5C, 0x00, 0xE4, 0x3A, 0x16, 0xC0] := by
  decide

/-- C2 amended: `build_request` on TREADMILL (4), ENABLE (0x90) and the
8-byte activation payload `0701625C00E43A16` returns exactly the 16 bytes
`02 04 02 0C 04 0C 90 07 01 62 5C 00 E4 3A 16 9A`; the final checksum byte
is `0x9A = (0x04 + 0x0C + 0x90 + Σ payload) & 0xFF`. -/
theorem build_request_enable_example :
    build_request 4 0x90 [0x07, 0x01, 0x62, 0x5C, 0x00, 0xE4, 0x3A, 0x16] =
      some [0x02, 0x04, 0x02, 0x0C, 0x04, 0x0C, 0x90,
            0x07, 0x01, 0x62, 0x5C, 0x00, 0xE4, 0x3A, 0x16, 0x9A] := by
  decide

/-! ## `validate_checksum` (protocol.py, lines 609-615).

The source returns immediately (no validation) for responses of length
`≤ MIN_CHECKSUM_LENGTH = 5`; otherwise it sums `response[4:-1]`, masks to
the low byte, and raises `ValueError("checksum invalid")` on mismatch with
the final byte. -/

def MIN_CHECKSUM_LENGTH : Nat := 5

def validate_checksum (response : List Nat) : Except String Unit :=
  if response.length ≤ MIN_CHECKSUM_LENGTH then .ok ()
  else
    let checksum := ((response.drop 4).dropLast).sum % 256
    if checksum ≠ response.getLast?.getD 0 then .error "checksum invalid"
    else .ok ()

/-- C4 counterexample: the claimed equivalence "raises iff the low byte of
`Σ R[4..-2]` differs from `R[-1]`" fails on the 5-byte buffer
`[0,0,0,0,7]`: the checksum region is empty (sum 0, low byte 0), the last
byte is 7, yet `validate_checksum` returns without error because buffers of
length ≤ 5 are never validated. -/
theorem validate_checksum_short_buffer_not_validated :
    (([0, 0, 0, 0, 7] : List Nat).drop 4).dropLast.sum % 256 = 0 ∧
    ([0, 0, 0, 0, 7] : List Nat).getLast?.getD 0 = 7 ∧
    validate_checksum [0, 0, 0, 0, 7] = .ok () := by
  exact ⟨rfl, rfl, rfl⟩

/-- C4 amended: for every response buffer of length strictly greater than
5, `validate_checksum` raises exactly when the low byte of the sum of bytes
`R[4..-2]` differs from the final byte, and returns `()` when they match;
buffers of length ≤ 5 are returned without validation. -/
theorem validate_checksum_iff (R : List Nat) (h : 5 < R.length) :
    (validate_checksum R = .error "checksum invalid" ↔
      (R.drop 4).dropLast.sum % 256 ≠ R.getLast?.getD 0) ∧
    ((R.drop 4).dropLast.sum % 256 = R.getLast?.getD 0 →
      validate_checksum R = .ok ()) := by
  have hlen : ¬ R.length ≤ MIN_CHECKSUM_LENGTH := by
    simp only [MIN_CHECKSUM_LENGTH]; omega
  constructor
  · constructor
    · intro herr
      simp only [validate_checksum, if_neg hlen] at herr
      by_contra heq
      rw [if_neg (not_not_intro heq)] at herr
      exact Except.noConfusion herr
    · intro hne
      simp only [validate_checksum, if_neg hlen, if_pos hne]
  · intro heq
    simp only [validate_checksum, if_neg hlen]
    rw [if_neg (not_not_intro heq)]

/-- Witness for C4 amended: a 6-byte buffer with a valid checksum and the
same buffer with an invalid final byte. -/
theorem validate_checksum_iff_witness :
    (validate_checksum [0, 0, 0, 0, 7, 7] = .error "checksum invalid" ↔
      (([0, 0, 0, 0, 7, 7] : List Nat).drop 4).dropLast.sum % 256 ≠
        ([0, 0, 0, 0, 7, 7] : List Nat).getLast?.getD 0) ∧
    ((([0, 0, 0, 0, 7, 7] : List Nat).drop 4).dropLast.sum % 256 =
        ([0, 0, 0, 0, 7, 7] : List Nat).getLast?.getD 0 →
      validate_checksum [0, 0, 0, 0, 7, 7] = .ok ()) :=
  validate_checksum_iff [0, 0, 0, 0, 7, 7] (by norm_num)

/-! ## BLE chunking (protocol.py, lines 378-458).

`request_header` builds the 4-byte header chunk; `build_write_messages`
splits a request into the header followed by 20-byte data chunks of at most
`MAX_BYTES_PER_MESSAGE = 18` request bytes; `get_header_from_response` and
`fill_response` reassemble the other direction.  The source assigns
`buf[2] = len(request)` into a single byte, which raises `ValueError` for
requests longer than 255 bytes; those inputs are modelled as `none`. -/

def MAX_BYTES_PER_MESSAGE : Nat := 18

def MIN_HEADER_LENGTH : Nat := 4

def MIN_CHUNK_LENGTH : Nat := 2

def request_header (request : List Nat) (number_of_writes : Nat) : Option (List Nat) :=
  if request.length ≤ 255 ∧ number_of_writes + 1 ≤ 255 then
    some [0xFE, 2, request.length, number_of_writes + 1]
  else none

/-- One iteration of the chunking loop in `build_write_messages`: each data
chunk is a 20-byte message `[index, length, data..., padding zeros]`; the
final chunk (the one that exhausts the request) gets index `0xFF`.  The
source's `while not done` loop is modelled with a fuel parameter; each
iteration consumes at least one request byte, so fuel `request.length`
suffices. -/
def write_chunks (request : List Nat) (number_of_writes : Nat) :
    Nat → Nat → Nat → List (List Nat)
  | _, _, 0 => []
  | offset, counter, fuel + 1 =>
    let length := if counter < number_of_writes then MAX_BYTES_PER_MESSAGE
      else (request.length - 1) % MAX_BYTES_PER_MESSAGE + 1
    let data := (request.drop offset).take length ++
      List.replicate (MAX_BYTES_PER_MESSAGE - length) 0
    if offset + length = request.length then
      [0xFF :: length :: data]
    else
      ((counter - 1) :: length :: data) ::
        write_chunks request number_of_writes (offset + length) (counter + 1) fuel

def build_write_messages (request : List Nat) : Option (List (List Nat)) :=
  let number_of_writes :=
    (request.length + MAX_BYTES_PER_MESSAGE - 1) / MAX_BYTES_PER_MESSAGE
  (request_header request number_of_writes).map fun header =>
    if request.length = 0 then [header]
    else header :: write_chunks request number_of_writes 0 1 request.length

/-- Parse the response header chunk (protocol.py, lines 426-435).  Returns
the number of upcoming messages `message[3] - 1` and a zero buffer of
`message[2]` bytes.  The source computes `message[3] - 1` over Python ints;
`Nat` subtraction agrees on every header whose byte 3 is at least 1, which
holds for all headers produced by `request_header`. -/
def get_header_from_response (message : List Nat) : Except String (Nat × List Nat) :=
  if message.length < MIN_HEADER_LENGTH then
    .error "unexpected message format - four bytes expected"
  else if message.headI ≠ 0xFE then
    .error "message is not a header"
  else
    .ok (message.getD 3 0 - 1, List.replicate (message.getD 2 0) 0)

/-- Copy a response chunk into the buffer (protocol.py, lines 438-458).
The source mutates the buffer by slice assignment; the returned list is the
updated buffer, with the splice `buffer[pos:pos+length] = message[2:2+length]`
modelled exactly (including the resizing Python semantics when the message
carries fewer than `length` bytes). -/
def fill_response (buffer : List Nat) (number_of_reads : Nat) (message : List Nat) :
    Except String (List Nat) :=
  if message.length < MIN_CHUNK_LENGTH then
    .error "unexpected message format - two bytes expected"
  else
    let index := message.headI
    if index ≠ 0xFF ∧ index ≥ number_of_reads then
      .error "index of message exceeds number of expected reads"
    else
      let pos := (if index = 0xFF then number_of_reads - 1 else index) * 18
      let length := message.getD 1 0
      if length + pos > buffer.length then
        .error "amount of data in message exceeds buffer size"
      else
        .ok (buffer.take pos ++ (message.drop 2).take length ++ buffer.drop (pos + length))

/-- The reassembly pipeline named by claim C3: parse the first chunk with
`get_header_from_response`, then apply `fill_response` to every following
chunk. -/
def reassemble (messages : List (List Nat)) : Except String (List Nat) :=
  match messages with
  | [] => .error "no messages"
  | header :: rest => do
    let hd ← get_header_from_response header
    rest.foldlM (fun buf msg => fill_response buf hd.1 msg) hd.2

/-- Shape of a non-final data chunk produced by `build_write_messages`:
index `i`, length 18, 18 request bytes. -/
def full_chunk (r : List Nat) (i : Nat) : List Nat :=
  i :: 18 :: (r.drop (18 * i)).take 18

/-- Shape of the final (EOF) data chunk produced by `build_write_messages`
for a nonempty request split into `n` chunks. -/
def eof_chunk (r : List Nat) (n : Nat) : List Nat :=
  0xFF :: ((r.length - 1) % 18 + 1) ::
    ((r.drop (18 * (n - 1))).take ((r.length - 1) % 18 + 1) ++
      List.replicate (18 - ((r.length - 1) % 18 + 1)) 0)

theorem write_chunks_closed_form (r : List Nat) (n : Nat)
    (hn : n = (r.length + 17) / 18) (hL : 1 ≤ r.length) :
    ∀ fuel c, 1 ≤ c → c ≤ n → n - c < fuel →
      write_chunks r n (18 * (c - 1)) c fuel =
        (List.range' (c - 1) (n - c)).map (full_chunk r) ++ [eof_chunk r n] := by
  intro fuel
  induction fuel with
  | zero => intro c _ _ h3; omega
  | succ fuel ih =>
    intro c h1 h2 h3
    by_cases hcn : c = n
    · subst hcn
      have hnotlt : ¬ (c < c) := lt_irrefl c
      have hcond : 18 * (c - 1) + ((r.length - 1) % 18 + 1) = r.length := by
        omega
      simp only [write_chunks, MAX_BYTES_PER_MESSAGE, if_neg hnotlt, if_pos hcond,
        Nat.sub_self, List.range', List.map_nil, List.nil_append]
      rfl
    · have hlt : c < n := lt_of_le_of_ne h2 hcn
      have hcond : ¬ (18 * (c - 1) + 18 = r.length) := by
        omega
      have hrange : n - c = (n - (c + 1)) + 1 := by omega
      rw [write_chunks, if_pos hlt, if_neg (by simpa [MAX_BYTES_PER_MESSAGE] using hcond)]
      have hoff : 18 * (c - 1) + MAX_BYTES_PER_MESSAGE = 18 * ((c + 1) - 1) := by
        simp only [MAX_BYTES_PER_MESSAGE]; omega
      rw [hoff, ih (c + 1) (by omega) (by omega) (by omega)]
      have he : c - 1 + 1 = c := by omega
      rw [hrange, List.range'_succ, List.map_cons, List.cons_append, he]
      simp only [Nat.add_sub_cancel]
      congr 1
      simp only [full_chunk, MAX_BYTES_PER_MESSAGE, Nat.sub_self, List.replicate_zero,
        List.append_nil]

theorem fill_response_full_chunk (r : List Nat) (n : Nat)
    (hn : n = (r.length + 17) / 18) (hL2 : r.length ≤ 255)
    (c : Nat) (h1 : 1 ≤ c) (hlt : c < n) :
    fill_response (r.take (18 * (c - 1)) ++ List.replicate (r.length - 18 * (c - 1)) 0)
      n (full_chunk r (c - 1)) =
    .ok (r.take (18 * c) ++ List.replicate (r.length - 18 * c) 0) := by
  have hp : 18 * (c - 1) + 18 ≤ r.length := by omega
  have htklen : (r.take (18 * (c - 1))).length = 18 * (c - 1) := by
    rw [List.length_take]; omega
  have hbuflen :
      (r.take (18 * (c - 1)) ++ List.replicate (r.length - 18 * (c - 1)) 0).length =
        r.length := by
    simp [htklen]; omega
  have hdroplen : 18 ≤ (r.drop (18 * (c - 1))).length := by
    rw [List.length_drop]; omega
  have hmsglen : ¬ ((full_chunk r (c - 1)).length < MIN_CHUNK_LENGTH) := by
    simp [full_chunk, MIN_CHUNK_LENGTH]
  rw [fill_response, if_neg hmsglen]
  have hidx : (full_chunk r (c - 1)).headI = c - 1 := rfl
  rw [hidx]
  have hguard : ¬ (c - 1 ≠ 0xFF ∧ c - 1 ≥ n) := by
    intro h
    omega
  rw [if_neg hguard]
  have hne : ¬ (c - 1 = 0xFF) := by omega
  rw [if_neg hne]
  have hlenbyte : (full_chunk r (c - 1)).getD 1 0 = 18 := rfl
  rw [hlenbyte]
  have hmul : (c - 1) * 18 = 18 * (c - 1) := Nat.mul_comm _ _
  rw [hmul, hbuflen]
  rw [if_neg (by omega)]
  congr 1
  have hdrop2 : (full_chunk r (c - 1)).drop 2 = (r.drop (18 * (c - 1))).take 18 := rfl
  rw [hdrop2, List.take_take, Nat.min_self]
  rw [List.take_left' htklen]
  have hdropsplit :
      (r.take (18 * (c - 1)) ++ List.replicate (r.length - 18 * (c - 1)) 0).drop
        (18 * (c - 1) + 18) =
      List.replicate (r.length - 18 * c) 0 := by
    calc (r.take (18 * (c - 1)) ++ List.replicate (r.length - 18 * (c - 1)) 0).drop
          (18 * (c - 1) + 18)
        = (r.take (18 * (c - 1)) ++ List.replicate (r.length - 18 * (c - 1)) 0).drop
          ((r.take (18 * (c - 1))).length + 18) := by rw [htklen]
      _ = (List.replicate (r.length - 18 * (c - 1)) 0).drop 18 := List.drop_append 18
      _ = List.replicate (r.length - 18 * c) 0 := by
          rw [List.drop_replicate]; congr 1; omega
  rw [hdropsplit]
  have htk : r.take (18 * c) = r.take (18 * (c - 1)) ++ (r.drop (18 * (c - 1))).take 18 := by
    rw [← List.take_add]
    congr 1
    omega
  rw [htk, List.append_assoc]

theorem fill_response_eof_chunk (r : List Nat) (n : Nat)
    (hn : n = (r.length + 17) / 18) (hL1 : 1 ≤ r.length) :
    fill_response (r.take (18 * (n - 1)) ++ List.replicate (r.length - 18 * (n - 1)) 0)
      n (eof_chunk r n) =
    .ok r := by
  have hlast : 18 * (n - 1) + ((r.length - 1) % 18 + 1) = r.length := by omega
  have htklen : (r.take (18 * (n - 1))).length = 18 * (n - 1) := by
    rw [List.length_take]; omega
  have hbuflen :
      (r.take (18 * (n - 1)) ++ List.replicate (r.length - 18 * (n - 1)) 0).length =
        r.length := by
    simp [htklen]; omega
  have hdroplen : (r.drop (18 * (n - 1))).length = (r.length - 1) % 18 + 1 := by
    rw [List.length_drop]; omega
  have hmsglen : ¬ ((eof_chunk r n).length < MIN_CHUNK_LENGTH) := by
    simp [eof_chunk, MIN_CHUNK_LENGTH]
  rw [fill_response, if_neg hmsglen]
  have hidx : (eof_chunk r n).headI = 0xFF := rfl
  rw [hidx]
  rw [if_neg (by simp)]
  rw [if_pos rfl]
  have hlenbyte : (eof_chunk r n).getD 1 0 = (r.length - 1) % 18 + 1 := rfl
  rw [hlenbyte]
  have hmul : (n - 1) * 18 = 18 * (n - 1) := Nat.mul_comm _ _
  rw [hmul, hbuflen]
  rw [if_neg (by omega)]
  congr 1
  have hdrop2 : (eof_chunk r n).drop 2 =
      (r.drop (18 * (n - 1))).take ((r.length - 1) % 18 + 1) ++
        List.replicate (18 - ((r.length - 1) % 18 + 1)) 0 := rfl
  rw [hdrop2]
  have hXlen : ((r.drop (18 * (n - 1))).take ((r.length - 1) % 18 + 1)).length =
      (r.length - 1) % 18 + 1 := by
    rw [List.length_take]; omega
  have hmid : ((r.drop (18 * (n - 1))).take ((r.length - 1) % 18 + 1) ++
      List.replicate (18 - ((r.length - 1) % 18 + 1)) 0).take ((r.length - 1) % 18 + 1) =
      r.drop (18 * (n - 1)) := by
    rw [List.take_left' hXlen]
    exact List.take_of_length_le (le_of_eq hdroplen)
  have hdropnil : (r.take (18 * (n - 1)) ++
      List.replicate (r.length - 18 * (n - 1)) 0).drop
        (18 * (n - 1) + ((r.length - 1) % 18 + 1)) = ([] : List Nat) :=
    List.drop_eq_nil_of_le (by rw [hbuflen]; omega)
  rw [hmid, hdropnil, List.take_left' htklen, List.append_nil, List.take_append_drop]

theorem reassemble_chunks (r : List Nat) (n : Nat)
    (hn : n = (r.length + 17) / 18) (hL1 : 1 ≤ r.length) (hL2 : r.length ≤ 255) :
    ∀ d c, 1 ≤ c → c + d = n →
      List.foldlM (fun buf msg => fill_response buf n msg)
        (r.take (18 * (c - 1)) ++ List.replicate (r.length - 18 * (c - 1)) 0)
        ((List.range' (c - 1) (n - c)).map (full_chunk r) ++ [eof_chunk r n]) =
      .ok r := by
  intro d
  induction d with
  | zero =>
    intro c h1 h2
    have hcn : c = n := by omega
    subst hcn
    simp only [Nat.sub_self, List.range', List.map_nil, List.nil_append]
    rw [List.foldlM_cons]
    rw [fill_response_eof_chunk r _ hn hL1]
    rfl
  | succ d ih =>
    intro c h1 h2
    have hlt : c < n := by omega
    have hrange : n - c = (n - (c + 1)) + 1 := by omega
    have he : c - 1 + 1 = c := by omega
    rw [hrange, List.range'_succ, he, List.map_cons, List.cons_append, List.foldlM_cons]
    rw [fill_response_full_chunk r n hn hL2 c h1 hlt]
    have hnext := ih (c + 1) (by omega) (by omega)
    simp only [Nat.add_sub_cancel] at hnext
    exact hnext

/-- C3 counterexample: the claimed range `1 ≤ len(request) ≤ 4095` is too
wide.  For a 256-byte request the source raises `ValueError` when writing
`len(request)` into the single header byte (`buf[2] = len(request)` in
`request_header`), so no chunks are produced at all; the reassembly claimed
for every length up to 4095 is impossible at length 256. -/
theorem build_write_messages_256_fails :
    (1 ≤ 256 ∧ 256 ≤ 4095) ∧
      build_write_messages (List.replicate 256 0) = none := by
  refine ⟨⟨by norm_num, by norm_num⟩, ?_⟩
  rw [build_write_messages, request_header]
  rw [if_neg (by simp only [List.length_replicate]; omega)]
  rfl

/-- C3 amended: for every request of length between 1 and 255,
`build_write_messages` produces a header chunk `[0xFE, 2, len(r), n + 1]`
(`n` the number of data chunks) followed by data chunks whose index bytes
are `0, 1, …, n - 2` and then the EOF marker `0xFF`, each carrying at most
18 request bytes; parsing the first chunk with `get_header_from_response`
and folding `fill_response` over the rest reconstructs the request
exactly. -/
theorem build_write_messages_roundtrip (r : List Nat)
    (hL1 : 1 ≤ r.length) (hL2 : r.length ≤ 255) :
    ∃ msgs, build_write_messages r = some msgs ∧
      reassemble msgs = .ok r ∧
      msgs.head? = some [0xFE, 2, r.length, (r.length + 17) / 18 + 1] ∧
      msgs.tail.map List.headI =
        List.range ((r.length + 17) / 18 - 1) ++ [0xFF] ∧
      ∀ m ∈ msgs.tail, m.getD 1 0 ≤ 18 := by
  have hn : (r.length + 17) / 18 = (r.length + 17) / 18 := rfl
  set n := (r.length + 17) / 18 with hndef
  have hn1 : 1 ≤ n := by omega
  have hn15 : n ≤ 15 := by omega
  have hchunks := write_chunks_closed_form r n hndef hL1 r.length 1 (le_refl 1) hn1
    (by omega)
  norm_num at hchunks
  have hmsgs : build_write_messages r =
      some ([0xFE, 2, r.length, n + 1] ::
        ((List.range' 0 (n - 1)).map (full_chunk r) ++ [eof_chunk r n])) := by
    rw [build_write_messages, request_header]
    simp only [MAX_BYTES_PER_MESSAGE]
    have harith : r.length + 18 - 1 = r.length + 17 := by omega
    rw [harith]
    rw [if_pos ⟨hL2, by omega⟩]
    simp only [Option.map_some']
    rw [if_neg (by omega)]
    rw [← hndef, hchunks]
  refine ⟨_, hmsgs, ?_, ?_, ?_⟩
  · have hheader : get_header_from_response [0xFE, 2, r.length, n + 1] =
        .ok (n, List.replicate r.length 0) := by
      rw [get_header_from_response]
      rw [if_neg (by simp [MIN_HEADER_LENGTH])]
      rw [if_neg (by simp [List.headI])]
      have h3 : ([0xFE, 2, r.length, n + 1] : List Nat).getD 3 0 = n + 1 := rfl
      have h2 : ([0xFE, 2, r.length, n + 1] : List Nat).getD 2 0 = r.length := rfl
      rw [h3, h2, Nat.add_sub_cancel]
    have hfold := reassemble_chunks r n hndef hL1 hL2 (n - 1) 1 (le_refl 1) (by omega)
    simp only [Nat.sub_self, Nat.mul_zero, List.take_zero, Nat.sub_zero,
      List.nil_append] at hfold
    simp only [reassemble, hheader]
    exact hfold
  · rfl
  · constructor
    · simp only [List.tail_cons, List.map_append, List.map_map]
      have hmap : (List.range' 0 (n - 1)).map (List.headI ∘ full_chunk r) =
          List.range' 0 (n - 1) := by
        rw [List.map_congr_left, List.map_id]
        intro i _
        rfl
      rw [hmap, List.range_eq_range']
      rfl
    · intro m hm
      simp only [List.tail_cons, List.mem_append, List.mem_map, List.mem_singleton] at hm
      rcases hm with ⟨i, _, rfl⟩ | rfl
      · exact le_refl 18
      · show (r.length - 1) % 18 + 1 ≤ 18
        omega

/-- Witness for C3 amended at a concrete 20-byte request (two data
chunks). -/
theorem build_write_messages_roundtrip_witness :
    ∃ msgs, build_write_messages (List.replicate 20 7) = some msgs ∧
      reassemble msgs = .ok (List.replicate 20 7) ∧
      msgs.head? = some [0xFE, 2, 20, 3] ∧
      msgs.tail.map List.headI = List.range 1 ++ [0xFF] ∧
      ∀ m ∈ msgs.tail, m.getD 1 0 ≤ 18 :=
  build_write_messages_roundtrip (List.replicate 20 7) (by simp) (by simp)

/-! ## Converters and the characteristic catalog (protocol.py, lines 69-286).

Values flowing through converters are Python objects: floats/ints (modelled
exactly as rationals, the arithmetic the source performs on them being
exact in the modelled range), booleans, and the pulse dict
`{pulse, average, count, source}`. -/

inductive Value where
  | num (q : ℚ)
  | boolv (b : Bool)
  | pulse (pulse average count source : Nat)
  deriving DecidableEq

/-- Python `int(x)`: truncation toward zero of a rational. -/
def int_trunc (q : ℚ) : Int := Int.tdiv q.num q.den

/-- Numeric view of a value, as Python arithmetic sees it (`bool` is an
`int` subtype; arithmetic on a dict raises `TypeError`, modelled `none`). -/
def value_as_rat : Value → Option ℚ
  | .num q => some q
  | .boolv b => some (if b then 1 else 0)
  | .pulse _ _ _ _ => none

/-- `Converter` dataclass: fixed byte size plus `from_buffer`/`to_buffer`.
Decoding and encoding raise on malformed input in the source; those paths
return `none`.  `to_buffer` returns the updated buffer together with the
new position (the source mutates the buffer and returns the position). -/
structure Converter where
  size : Nat
  from_buffer : List Nat → Nat → Option Value
  to_buffer : List Nat → Nat → Value → Option (List Nat × Nat)

/-- `_make_scaled_converter` (protocol.py, lines 131-141): decodes
`int.from_bytes(...) / scale`, encodes `int(value * scale)`. -/
def _make_scaled_converter (scale : ℚ) (size : Nat) : Converter where
  size := size
  from_buffer := fun buffer pos =>
    some (.num ((fromLEBytes ((buffer.drop pos).take size) : ℚ) / scale))
  to_buffer := fun buf pos value =>
    match value_as_rat value with
    | none => none
    | some q =>
      let n := int_trunc (q * scale)
      if 0 ≤ n ∧ n < (256 : Int) ^ size then
        some (buf.take pos ++ toLEBytes size n.toNat ++ buf.drop (pos + size), pos + size)
      else none

def converter_double : Converter := _make_scaled_converter 100 2

/-- `CharacteristicDefinition` dataclass (protocol.py, lines 78-85). -/
structure CharacteristicDefinition where
  name : String
  id : Nat
  read_only : Bool
  converter : Option Converter

/-- `WriteValue` dataclass (protocol.py, lines 110-115). -/
structure WriteValue where
  characteristic : CharacteristicDefinition
  value : Value

/-- `EquipmentInformation` (protocol.py, lines 96-107), restricted to the
fields the embedded operations consult: the equipment id and the key set of
the `characteristics` dict (the code below only tests key membership). -/
structure EquipmentInformation where
  equipment : Nat
  characteristics : List Nat

/-! Catalog entries used by the claims (protocol.py, lines 189-269). -/

def Kph : CharacteristicDefinition := ⟨"Kph", 0, false, some converter_double⟩

def Incline : CharacteristicDefinition := ⟨"Incline", 1, false, some converter_double⟩

def CurrentKph : CharacteristicDefinition := ⟨"CurrentKph", 16, true, some converter_double⟩

def MaxKph : CharacteristicDefinition := ⟨"MaxKph", 30, true, some converter_double⟩

/-! ## `get_bitmap` (protocol.py, lines 289-314). -/

/-- The items iterated by `get_bitmap` have the Python union type
`CharacteristicDefinition | WriteValue`. -/
inductive BitmapItem where
  | char (c : CharacteristicDefinition)
  | write (w : WriteValue)

/-- The `item.characteristic if isinstance(item, WriteValue) else item`
normalisation at the top of the loop. -/
def bitmap_item_characteristic : BitmapItem → CharacteristicDefinition
  | .char c => c
  | .write w => w.characteristic

/-- The buffer-growing conditional inside the `get_bitmap` loop:
`payload[0] = pos` followed by `payload.extend([0] * (pos - len(payload) + 1))`
when `pos > payload[0]` (the extension count is computed before extending,
and a negative count extends by nothing). -/
def bitmap_grow (payload : List Nat) (pos : Nat) : List Nat :=
  if payload.headI < pos then
    payload.set 0 pos ++ List.replicate (pos + 1 - payload.length) 0
  else payload

/-- The mutation one supported characteristic id performs on the bitmap
buffer: grow if needed, then `payload[pos] |= 1 << bit`. -/
def bitmap_apply (payload : List Nat) (cid : Nat) : List Nat :=
  let pos := cid / 8 + 1
  let grown := bitmap_grow payload pos
  let bit := cid - (pos - 1) * 8
  grown.set pos (grown.getD pos 0 ||| 1 <<< bit)

/-- One iteration of the `get_bitmap` loop: unsupported characteristics are
skipped (`continue`), supported ones update the buffer. -/
def bitmap_step (supported : List Nat) (payload : List Nat) (item : BitmapItem) :
    List Nat :=
  let characteristic := bitmap_item_characteristic item
  if characteristic.id ∈ supported then bitmap_apply payload characteristic.id
  else payload

/-- `get_bitmap`: start from `bytearray([0])`, fold the loop body over the
items, then run the trailing padding loop, which appends one zero for each
index in `[1, payload[0])` not yet present (net effect: pad the length up
to `payload[0]`). -/
def get_bitmap (info : EquipmentInformation) (values : Option (List BitmapItem)) :
    List Nat :=
  match values with
  | none => [0]
  | some items =>
    let payload := items.foldl (bitmap_step info.characteristics) [0]
    payload ++ List.replicate (payload.headI - payload.length) 0

/-! ## `get_write_values` (protocol.py, lines 317-338). -/

/-- Stable insertion of a write in front of the first strictly-greater id;
together with `sorted_by_id` this models Python's stable
`sorted(writes_list, key=lambda item: item.characteristic.id)`. -/
def insort_by_id (a : WriteValue) : List WriteValue → List WriteValue
  | [] => [a]
  | b :: t =>
    if b.characteristic.id < a.characteristic.id then b :: insort_by_id a t
    else a :: b :: t

def sorted_by_id : List WriteValue → List WriteValue
  | [] => []
  | a :: t => insort_by_id a (sorted_by_id t)

/-- Size contribution of one write to the pre-allocated buffer:
`converter.size if converter else 1`. -/
def write_size (w : WriteValue) : Nat :=
  match w.characteristic.converter with
  | some c => c.size
  | none => 1

/-- The encoding loop of `get_write_values`: converter-bearing writes are
encoded through `to_buffer`, converter-less writes store one zero byte. -/
def write_values_go : List WriteValue → List Nat → Nat → Option (List Nat)
  | [], payload, _ => some payload
  | w :: rest, payload, pos =>
    match w.characteristic.converter with
    | some conv =>
      match conv.to_buffer payload pos w.value with
      | some out => write_values_go rest out.1 out.2
      | none => none
    | none => write_values_go rest (payload.set pos 0) (pos + 1)

/-- `get_write_values`: `None` (and the empty list, via Python truthiness
of `if not writes`) yields `None`; otherwise the writes are encoded in
ascending characteristic id order into a zero buffer sized by the summed
converter sizes.  The outer `Option` models an exception escaping from a
converter; the inner one is the source's `bytearray | None` return type. -/
def get_write_values (writes : Option (List WriteValue)) : Option (Option (List Nat)) :=
  match writes with
  | none => some none
  | some [] => some none
  | some ws =>
    let size := (ws.map write_size).sum
    (write_values_go (sorted_by_id ws) (List.replicate size 0) 0).map some

/-- Payload assembly of `IFitBleClient.write_and_read` (_client.py, lines
318-351): `write_bitmap ‖ write_values ‖ read_bitmap`, the middle part
appended only when `get_write_values` returned a truthy (non-`None`,
nonempty) buffer. -/
def write_and_read_payload (info : EquipmentInformation) (writes : List WriteValue)
    (read_defs : List CharacteristicDefinition) : Option (List Nat) :=
  let write_payload := get_bitmap info (some (writes.map BitmapItem.write))
  let read_payload := get_bitmap info (some (read_defs.map BitmapItem.char))
  match get_write_values (some writes) with
  | none => none
  | some none => some (write_payload ++ read_payload)
  | some (some wv) =>
    if wv = [] then some (write_payload ++ read_payload)
    else some (write_payload ++ wv ++ read_payload)

theorem int_trunc_natCast (n : ℕ) : int_trunc (n : ℚ) = (n : ℤ) := by
  simp [int_trunc]

theorem scaled_to_buffer_eq (scale : ℚ) (size : Nat) (buf : List Nat) (pos : Nat)
    (q : ℚ) (n : ℕ) (hqn : q * scale = (n : ℚ)) (hlt : n < 256 ^ size) :
    (_make_scaled_converter scale size).to_buffer buf pos (.num q) =
      some (buf.take pos ++ toLEBytes size n ++ buf.drop (pos + size), pos + size) := by
  simp only [_make_scaled_converter, value_as_rat]
  rw [hqn, int_trunc_natCast]
  rw [if_pos ⟨Int.natCast_nonneg n, by exact_mod_cast hlt⟩]
  simp

/-- Bit `(id mod 8)` of byte `1 + id / 8`, the position claim C5 names. -/
def bitmap_bit (payload : List Nat) (id : Nat) : Bool :=
  Nat.testBit (payload.getD (id / 8 + 1) 0) (id % 8)

theorem getD_append_replicate_zero (l : List Nat) (m i : Nat) :
    (l ++ List.replicate m 0).getD i 0 = l.getD i 0 := by
  rcases lt_or_le i l.length with h | h
  · rw [List.getD_eq_getElem?_getD, List.getD_eq_getElem?_getD,
      List.getElem?_append_left h]
  · rw [List.getD_eq_getElem?_getD, List.getD_eq_getElem?_getD,
      List.getElem?_append_right h, List.getElem?_replicate, List.getElem?_eq_none h]
    split <;> rfl

theorem getD_set_ne (l : List Nat) (i j v : Nat) (h : i ≠ j) :
    (l.set i v).getD j 0 = l.getD j 0 := by
  rw [List.getD_eq_getElem?_getD, List.getD_eq_getElem?_getD, List.getElem?_set_ne h]

theorem getD_set_self (l : List Nat) (i v : Nat) (h : i < l.length) :
    (l.set i v).getD i 0 = v := by
  rw [List.getD_eq_getElem?_getD, List.getElem?_set_self h]
  rfl

theorem bitmap_grow_length (b : Nat) (t : List Nat) (h : t.length = b) (pos : Nat) :
    (bitmap_grow (b :: t) pos).length = max (b + 1) (pos + 1) := by
  have hb : (b :: t).headI = b := rfl
  rw [bitmap_grow, hb]
  by_cases hlt : b < pos
  · rw [if_pos hlt]
    simp only [List.length_append, List.length_set, List.length_cons,
      List.length_replicate, h]
    omega
  · rw [if_neg hlt]
    simp only [List.length_cons, h]
    omega

theorem bitmap_grow_getD_zero (b : Nat) (t : List Nat) (pos : Nat) :
    (bitmap_grow (b :: t) pos).getD 0 0 = max b pos := by
  have hb : (b :: t).headI = b := rfl
  rw [bitmap_grow, hb]
  by_cases hlt : b < pos
  · rw [if_pos hlt]
    have hset : (b :: t).set 0 pos = pos :: t := rfl
    rw [hset, getD_append_replicate_zero]
    show pos = max b pos
    omega
  · rw [if_neg hlt]
    show b = max b pos
    omega

theorem bitmap_grow_getD (b : Nat) (t : List Nat) (pos j : Nat) (hj : 1 ≤ j) :
    (bitmap_grow (b :: t) pos).getD j 0 = (b :: t).getD j 0 := by
  rw [bitmap_grow]
  by_cases hlt : (b :: t).headI < pos
  · rw [if_pos hlt, getD_append_replicate_zero]
    exact getD_set_ne _ 0 j _ (by omega)
  · rw [if_neg hlt]

theorem bitmap_apply_spec (cid b : Nat) (t : List Nat) (h : t.length = b) :
    ((bitmap_apply (b :: t) cid).length = (bitmap_apply (b :: t) cid).getD 0 0 + 1) ∧
    (∀ id, bitmap_bit (bitmap_apply (b :: t) cid) id =
      (bitmap_bit (b :: t) id || decide (cid = id))) := by
  have hbit : cid - (cid / 8 + 1 - 1) * 8 = cid % 8 := by omega
  have happly : bitmap_apply (b :: t) cid =
      (bitmap_grow (b :: t) (cid / 8 + 1)).set (cid / 8 + 1)
        ((bitmap_grow (b :: t) (cid / 8 + 1)).getD (cid / 8 + 1) 0 ||| 1 <<< (cid % 8)) := by
    simp only [bitmap_apply]
    rw [hbit]
  have hglen : (bitmap_grow (b :: t) (cid / 8 + 1)).length =
      max (b + 1) (cid / 8 + 1 + 1) := bitmap_grow_length b t h _
  have hposlt : cid / 8 + 1 < (bitmap_grow (b :: t) (cid / 8 + 1)).length := by
    rw [hglen]; omega
  constructor
  · rw [happly, List.length_set, getD_set_ne _ _ _ _ (by omega),
      bitmap_grow_getD_zero, hglen]
    omega
  · intro id
    rw [happly]
    by_cases hid : cid = id
    · subst hid
      rw [bitmap_bit, getD_set_self _ _ _ hposlt]
      rw [Nat.one_shiftLeft, Nat.testBit_lor, Nat.testBit_two_pow]
      simp
    · rw [bitmap_bit, bitmap_bit]
      by_cases hk : cid / 8 = id / 8
      · have hbitne : cid % 8 ≠ id % 8 := by omega
        rw [← hk, getD_set_self _ _ _ hposlt]
        rw [Nat.one_shiftLeft, Nat.testBit_lor, Nat.testBit_two_pow]
        rw [bitmap_grow_getD b t _ _ (by omega)]
        rw [hk]
        simp [hbitne, hid]
      · rw [getD_set_ne _ _ _ _ (by omega)]
        rw [bitmap_grow_getD b t _ _ (by omega)]
        simp [hid]

theorem bitmap_fold_spec (supp : List Nat) (items : List BitmapItem) :
    ∀ b : Nat, ∀ t : List Nat, t.length = b →
      ∃ b2 t2, items.foldl (bitmap_step supp) (b :: t) = b2 :: t2 ∧ t2.length = b2 ∧
        ∀ id, bitmap_bit (b2 :: t2) id =
          (bitmap_bit (b :: t) id ||
            decide (∃ item ∈ items, (bitmap_item_characteristic item).id = id ∧
              id ∈ supp)) := by
  induction items with
  | nil =>
    intro b t h
    exact ⟨b, t, rfl, h, fun id => by simp⟩
  | cons x xs ih =>
    intro b t h
    rw [List.foldl_cons]
    by_cases hmem : (bitmap_item_characteristic x).id ∈ supp
    · have hstep : bitmap_step supp (b :: t) x =
          bitmap_apply (b :: t) (bitmap_item_characteristic x).id := by
        simp only [bitmap_step, if_pos hmem]
      obtain ⟨hlen, hbits⟩ := bitmap_apply_spec (bitmap_item_characteristic x).id b t h
      have hne : bitmap_apply (b :: t) (bitmap_item_characteristic x).id ≠ [] := by
        intro hnil
        rw [hnil] at hlen
        simp [List.getD] at hlen
      obtain ⟨b1, t1, happ⟩ := List.exists_cons_of_ne_nil hne
      rw [happ] at hlen hbits
      have ht1 : t1.length = b1 := by
        simpa using hlen
      obtain ⟨b2, t2, hfold, ht2, hbits2⟩ := ih b1 t1 ht1
      refine ⟨b2, t2, by rw [hstep, happ, hfold], ht2, fun id => ?_⟩
      rw [hbits2 id, hbits id]
      by_cases hx : (bitmap_item_characteristic x).id = id
      · subst hx
        have hex : ∃ item ∈ x :: xs,
            (bitmap_item_characteristic item).id = (bitmap_item_characteristic x).id ∧
              (bitmap_item_characteristic x).id ∈ supp :=
          ⟨x, List.mem_cons_self x xs, rfl, hmem⟩
        simp [hex]
        exact Or.inr (Or.inl hmem)
      · have hiff : (∃ item ∈ x :: xs,
            (bitmap_item_characteristic item).id = id ∧ id ∈ supp) ↔
            (∃ item ∈ xs, (bitmap_item_characteristic item).id = id ∧ id ∈ supp) := by
          constructor
          · rintro ⟨item, hmemi, hi, hsup⟩
            rcases List.mem_cons.mp hmemi with rfl | hmemi2
            · exact absurd hi hx
            · exact ⟨item, hmemi2, hi, hsup⟩
          · rintro ⟨item, hmemi, hi, hsup⟩
            exact ⟨item, List.mem_cons_of_mem x hmemi, hi, hsup⟩
        have hdec : decide (∃ item ∈ x :: xs,
            (bitmap_item_characteristic item).id = id ∧ id ∈ supp) =
            decide (∃ item ∈ xs, (bitmap_item_characteristic item).id = id ∧
              id ∈ supp) :=
          decide_eq_decide.mpr hiff
        rw [hdec]
        simp [hx, Bool.or_assoc]
    · have hstep : bitmap_step supp (b :: t) x = b :: t := by
        simp only [bitmap_step, if_neg hmem]
      obtain ⟨b2, t2, hfold, ht2, hbits2⟩ := ih b t h
      refine ⟨b2, t2, by rw [hstep, hfold], ht2, fun id => ?_⟩
      rw [hbits2 id]
      have hiff : (∃ item ∈ x :: xs,
          (bitmap_item_characteristic item).id = id ∧ id ∈ supp) ↔
          (∃ item ∈ xs, (bitmap_item_characteristic item).id = id ∧ id ∈ supp) := by
        constructor
        · rintro ⟨item, hmemi, hi, hsup⟩
          rcases List.mem_cons.mp hmemi with rfl | hmemi2
          · exact absurd (by rw [hi]; exact hsup) hmem
          · exact ⟨item, hmemi2, hi, hsup⟩
        · rintro ⟨item, hmemi, hi, hsup⟩
          exact ⟨item, List.mem_cons_of_mem x hmemi, hi, hsup⟩
      have hdec : decide (∃ item ∈ x :: xs,
          (bitmap_item_characteristic item).id = id ∧ id ∈ supp) =
          decide (∃ item ∈ xs, (bitmap_item_characteristic item).id = id ∧
            id ∈ supp) :=
        decide_eq_decide.mpr hiff
      rw [hdec]

theorem get_bitmap_some_eq (info : EquipmentInformation) (items : List BitmapItem) :
    ∃ b2 t2, get_bitmap info (some items) = b2 :: t2 ∧ t2.length = b2 ∧
      ∀ id, bitmap_bit (b2 :: t2) id =
        decide (∃ item ∈ items, (bitmap_item_characteristic item).id = id ∧
          id ∈ info.characteristics) := by
  obtain ⟨b2, t2, hfold, ht2, hbits⟩ :=
    bitmap_fold_spec info.characteristics items 0 [] rfl
  refine ⟨b2, t2, ?_, ht2, fun id => ?_⟩
  · simp only [get_bitmap]
    rw [hfold]
    have hpad : (b2 :: t2).headI - (b2 :: t2).length = 0 := by
      have hh : (b2 :: t2).headI = b2 := rfl
      rw [hh]
      simp [ht2]
    rw [hpad]
    simp
  · rw [hbits id]
    have hinit : bitmap_bit [0] id = false := by
      simp [bitmap_bit, List.getD_eq_getElem?_getD, List.getElem?_cons_succ,
        Nat.zero_testBit]
    rw [hinit]
    simp

/-- C5: for every set of characteristics and every equipment information,
`get_bitmap` returns a buffer whose byte 0 counts the data bytes that
follow, and in which bit `(id mod 8)` of byte `1 + id / 8` is set exactly
for the ids of given characteristics present in
`info.characteristics`; unsupported ones are silently dropped.  For a
supported `MaxKph` (id 30) alone the bitmap is `[0x04, 0, 0, 0, 0x40]`. -/
theorem get_bitmap_spec (info : EquipmentInformation) (S : List CharacteristicDefinition) :
    ((get_bitmap info (some (S.map BitmapItem.char))).headI + 1 =
      (get_bitmap info (some (S.map BitmapItem.char))).length) ∧
    (∀ id, bitmap_bit (get_bitmap info (some (S.map BitmapItem.char))) id = true ↔
      ∃ c ∈ S, c.id = id ∧ id ∈ info.characteristics) ∧
    get_bitmap ⟨4, [30]⟩ (some [BitmapItem.char MaxKph]) = [0x04, 0, 0, 0, 0x40] := by
  obtain ⟨b2, t2, heq, ht2, hbits⟩ := get_bitmap_some_eq info (S.map BitmapItem.char)
  refine ⟨?_, fun id => ?_, by decide⟩
  · rw [heq]
    have hh : (b2 :: t2).headI = b2 := rfl
    rw [hh]
    simp [ht2]
  · rw [heq, hbits id]
    simp only [List.mem_map, decide_eq_true_eq]
    constructor
    · rintro ⟨item, ⟨c, hc, rfl⟩, hi, hsup⟩
      exact ⟨c, hc, hi, hsup⟩
    · rintro ⟨c, hc, hi, hsup⟩
      exact ⟨.char c, ⟨c, hc, rfl⟩, hi, hsup⟩

theorem double_to_buffer_800 :
    converter_double.to_buffer (List.replicate 4 0) 0 (.num 8) =
      some ([0x20, 0x03, 0, 0], 2) := by
  have h := scaled_to_buffer_eq 100 2 (List.replicate 4 0) 0 8 800 (by norm_num)
    (by norm_num)
  exact h.trans (by rfl)

theorem double_to_buffer_350 :
    converter_double.to_buffer [0x20, 0x03, 0, 0] 2 (.num (7 / 2)) =
      some ([0x20, 0x03, 0x5E, 0x01], 4) := by
  have h := scaled_to_buffer_eq 100 2 [0x20, 0x03, 0, 0] 2 (7 / 2) 350 (by norm_num)
    (by norm_num)
  exact h.trans (by rfl)

/-- Concrete `get_write_values` evaluation for the C6 scenario: writes
`{Kph: 8.0, Incline: 3.5}` encode, in ascending id order, as
`20 03 5E 01`. -/
theorem get_write_values_kph_incline :
    get_write_values (some [⟨Kph, .num 8⟩, ⟨Incline, .num (7 / 2)⟩]) =
      some (some [0x20, 0x03, 0x5E, 0x01]) := by
  have hsorted : sorted_by_id [⟨Kph, .num 8⟩, ⟨Incline, .num (7 / 2)⟩] =
      [⟨Kph, .num 8⟩, ⟨Incline, .num (7 / 2)⟩] := by rfl
  have hgo : write_values_go [⟨Kph, .num 8⟩, ⟨Incline, .num (7 / 2)⟩]
      (List.replicate 4 0) 0 = some [0x20, 0x03, 0x5E, 0x01] := by
    simp only [write_values_go, Kph, Incline, double_to_buffer_800, double_to_buffer_350]
  show (write_values_go (sorted_by_id [⟨Kph, .num 8⟩, ⟨Incline, .num (7 / 2)⟩])
      (List.replicate ([⟨Kph, .num 8⟩, ⟨Incline, .num (7 / 2)⟩].map write_size).sum 0)
      0).map some = some (some [0x20, 0x03, 0x5E, 0x01])
  rw [hsorted]
  have hsize : ([(⟨Kph, .num 8⟩ : WriteValue), ⟨Incline, .num (7 / 2)⟩].map write_size).sum
      = 4 := by rfl
  rw [hsize, hgo]
  rfl

/-- C6: the WRITE_AND_READ payload is `write_bitmap ‖ write_values ‖
read_bitmap`, with `write_values` encoding the writes in ascending
characteristic id order through their converters and omitted entirely when
there are no writes; for writes `{Kph: 8.0, Incline: 3.5}` and read
`CurrentKph`, all supported, the payload is
`01 03 20 03 5E 01 03 00 00 01`. -/
theorem write_and_read_payload_spec (info : EquipmentInformation)
    (writes : List WriteValue) (reads : List CharacteristicDefinition) (wv : List Nat)
    (hwv : get_write_values (some writes) = some (some wv)) (hne : wv ≠ []) :
    (write_and_read_payload info writes reads =
      some (get_bitmap info (some (writes.map BitmapItem.write)) ++ wv ++
        get_bitmap info (some (reads.map BitmapItem.char)))) ∧
    (write_and_read_payload info [] reads =
      some (get_bitmap info (some []) ++
        get_bitmap info (some (reads.map BitmapItem.char)))) ∧
    write_and_read_payload ⟨4, [0, 1, 16]⟩
      [⟨Kph, .num 8⟩, ⟨Incline, .num (7 / 2)⟩] [CurrentKph] =
      some [0x01, 0x03, 0x20, 0x03, 0x5E, 0x01, 0x03, 0x00, 0x00, 0x01] := by
  refine ⟨?_, rfl, ?_⟩
  · simp only [write_and_read_payload, hwv]
    rw [if_neg hne]
  · simp only [write_and_read_payload, get_write_values_kph_incline]
    rw [if_neg (by decide)]
    rfl

/-- Witness for C6 at the concrete scenario inputs. -/
theorem write_and_read_payload_spec_witness :
    (write_and_read_payload ⟨4, [0, 1, 16]⟩
      [⟨Kph, .num 8⟩, ⟨Incline, .num (7 / 2)⟩] [CurrentKph] =
      some [0x01, 0x03, 0x20, 0x03, 0x5E, 0x01, 0x03, 0x00, 0x00, 0x01]) ∧
    (write_and_read_payload ⟨4, [0, 1, 16]⟩ [] [CurrentKph] =
      some [0x00, 0x03, 0x00, 0x00, 0x01]) ∧
    write_and_read_payload ⟨4, [0, 1, 16]⟩
      [⟨Kph, .num 8⟩, ⟨Incline, .num (7 / 2)⟩] [CurrentKph] =
      some [0x01, 0x03, 0x20, 0x03, 0x5E, 0x01, 0x03, 0x00, 0x00, 0x01] :=
  write_and_read_payload_spec ⟨4, [0, 1, 16]⟩
    [⟨Kph, .num 8⟩, ⟨Incline, .num (7 / 2)⟩] [CurrentKph] [0x20, 0x03, 0x5E, 0x01]
    get_write_values_kph_incline (by decide)

/-- C10: `get_write_values` performs no support filtering (it encodes every
write, never consulting `EquipmentInformation`), while `get_bitmap`
silently drops unsupported characteristics; hence a write list containing
an unsupported characteristic yields a payload carrying that
characteristic's value bytes although its bit is absent from the write
bitmap.  Concretely, with only ids 0 and 16 supported, writes
`{Kph: 8.0, Incline: 3.5}` and read `CurrentKph` assemble to
`01 01 20 03 5E 01 03 00 00 01`: Incline's bytes `5E 01` are present but
bit 1 of the write bitmap is clear. -/
theorem write_values_unfiltered_vs_bitmap (info : EquipmentInformation)
    (writes : List WriteValue) (reads : List CharacteristicDefinition)
    (w : WriteValue) (_hw : w ∈ writes)
    (hunsup : w.characteristic.id ∉ info.characteristics)
    (wv : List Nat) (hwv : get_write_values (some writes) = some (some wv))
    (hne : wv ≠ []) :
    bitmap_bit (get_bitmap info (some (writes.map BitmapItem.write)))
      w.characteristic.id = false ∧
    write_and_read_payload info writes reads =
      some (get_bitmap info (some (writes.map BitmapItem.write)) ++ wv ++
        get_bitmap info (some (reads.map BitmapItem.char))) ∧
    write_and_read_payload ⟨4, [0, 16]⟩
      [⟨Kph, .num 8⟩, ⟨Incline, .num (7 / 2)⟩] [CurrentKph] =
      some [0x01, 0x01, 0x20, 0x03, 0x5E, 0x01, 0x03, 0x00, 0x00, 0x01] ∧
    bitmap_bit (get_bitmap ⟨4, [0, 16]⟩
      (some ([⟨Kph, .num 8⟩, ⟨Incline, .num (7 / 2)⟩].map BitmapItem.write))) 1 =
      false := by
  refine ⟨?_, ?_, ?_, by decide⟩
  · obtain ⟨b2, t2, heq, ht2, hbits⟩ :=
      get_bitmap_some_eq info (writes.map BitmapItem.write)
    rw [heq, hbits]
    simp only [decide_eq_false_iff_not]
    rintro ⟨item, hmem, hid, hsup⟩
    exact hunsup hsup
  · simp only [write_and_read_payload, hwv]
    rw [if_neg hne]
  · simp only [write_and_read_payload, get_write_values_kph_incline]
    rw [if_neg (by decide)]
    rfl

/-- Witness for C10 at the concrete scenario inputs. -/
theorem write_values_unfiltered_vs_bitmap_witness :
    bitmap_bit (get_bitmap ⟨4, [0, 16]⟩
      (some ([⟨Kph, .num 8⟩, ⟨Incline, .num (7 / 2)⟩].map BitmapItem.write)))
      (⟨Incline, .num (7 / 2)⟩ : WriteValue).characteristic.id = false ∧
    write_and_read_payload ⟨4, [0, 16]⟩
      [⟨Kph, .num 8⟩, ⟨Incline, .num (7 / 2)⟩] [CurrentKph] =
      some (get_bitmap ⟨4, [0, 16]⟩
        (some ([⟨Kph, .num 8⟩, ⟨Incline, .num (7 / 2)⟩].map BitmapItem.write)) ++
        [0x20, 0x03, 0x5E, 0x01] ++
        get_bitmap ⟨4, [0, 16]⟩ (some ([CurrentKph].map BitmapItem.char))) ∧
    write_and_read_payload ⟨4, [0, 16]⟩
      [⟨Kph, .num 8⟩, ⟨Incline, .num (7 / 2)⟩] [CurrentKph] =
      some [0x01, 0x01, 0x20, 0x03, 0x5E, 0x01, 0x03, 0x00, 0x00, 0x01] ∧
    bitmap_bit (get_bitmap ⟨4, [0, 16]⟩
      (some ([⟨Kph, .num 8⟩, ⟨Incline, .num (7 / 2)⟩].map BitmapItem.write))) 1 =
      false :=
  write_values_unfiltered_vs_bitmap ⟨4, [0, 16]⟩
    [⟨Kph, .num 8⟩, ⟨Incline, .num (7 / 2)⟩] [CurrentKph] ⟨Incline, .num (7 / 2)⟩
    (List.mem_cons_of_mem _ (List.mem_cons_self _ _)) (by decide)
    [0x20, 0x03, 0x5E, 0x01] get_write_values_kph_incline (by decide)

/-! ## FTMS relay status mapping (_server.py, lines 582-596 and 645-653). -/

/-- The `Mode` enum of protocol.py (lines 36-45) seen as Python attribute
lookup on the class: `Mode.NAME` for any other name raises
`AttributeError`. -/
def Mode_attr : String → Option Nat
  | "UNKNOWN" => some 0
  | "IDLE" => some 1
  | "ACTIVE" => some 2
  | "PAUSE" => some 3
  | "SUMMARY" => some 4
  | "SETTINGS" => some 7
  | "MISSING_SAFETY_KEY" => some 8
  | _ => none

/-- `encode_status_started` (_ftms.py, lines 235-237):
`pack("<B", STARTED_OR_RESUMED)` with `STARTED_OR_RESUMED = 0x04`. -/
def encode_status_started : List Nat := [0x04]

/-- `encode_status_stopped` (_ftms.py, lines 240-242):
`pack("<B", STOPPED_OR_PAUSED)` with `STOPPED_OR_PAUSED = 0x02`. -/
def encode_status_stopped : List Nat := [0x02]

/-- The Python value held in `values["Mode"]` when `_update_status` runs:
the `mode` converter decodes a plain `int`, while the mapping tests
`isinstance(mode, Mode)`, which only a genuine `Mode` enum instance
satisfies. -/
inductive ModeValue where
  | pyint (n : Nat)
  | mode (n : Nat)
  | absent

/-- `FtmsBleRelay._encode_status_from_mode` (_server.py, lines 645-653).
For a `Mode` instance the source evaluates the set literal
`{Mode.ACTIVE, Mode.WARMUP}`; the `Mode` enum has no `WARMUP` member, so
that attribute access raises `AttributeError`, modelled as `.error`.  Any
non-`Mode` value falls through to `return None`. -/
def encode_status_from_mode (mode : ModeValue) : Except String (Option (List Nat)) :=
  match mode with
  | .mode m =>
    match Mode_attr "ACTIVE", Mode_attr "WARMUP" with
    | some a, some w =>
      if m = a ∨ m = w then .ok (some encode_status_started)
      else
        match Mode_attr "PAUSE", Mode_attr "SUMMARY", Mode_attr "IDLE" with
        | some x, some y, some z =>
          if m = x ∨ m = y ∨ m = z then .ok (some encode_status_stopped)
          else .ok none
        | _, _, _ => .error "AttributeError"
    | _, _ => .error "AttributeError"
  | _ => .ok none

/-- `FtmsBleRelay._update_status` (_server.py, lines 582-596): encode the
status; `if not status or status == bytes(self._status_value): return`;
otherwise store the new status and notify.  Returns the stored status value
and whether a notification was sent. -/
def update_status (status_value : List Nat) (mode : ModeValue) :
    Except String (List Nat × Bool) :=
  match encode_status_from_mode mode with
  | .error e => .error e
  | .ok none => .ok (status_value, false)
  | .ok (some s) =>
    if s = [] ∨ s = status_value then .ok (status_value, false)
    else .ok (s, true)

/-- C9 (code bug): the mode-to-status mapping never yields a status update
without raising.  Evaluating the code at the failing input `Mode.ACTIVE`:
a genuine `Mode` instance makes `_encode_status_from_mode` raise
`AttributeError` (the referenced `Mode.WARMUP` member does not exist), and
the value the relay actually decodes — a plain `int 2`, since the `mode`
converter returns `int` — fails the `isinstance(mode, Mode)` test, so the
mapping returns `None` and `_update_status` never notifies. -/
theorem encode_status_from_mode_never_updates :
    encode_status_from_mode (.mode 2) = .error "AttributeError" ∧
    (∀ m, encode_status_from_mode (.mode m) = .error "AttributeError") ∧
    (∀ n, encode_status_from_mode (.pyint n) = .ok none) ∧
    (∀ sv m, update_status sv (.mode m) = .error "AttributeError") ∧
    ∀ sv n, update_status sv (.pyint n) = .ok (sv, false) :=
  ⟨rfl, fun _ => rfl, fun _ => rfl, fun _ _ => rfl, fun _ _ => rfl⟩

/-! ## Interceptor (interceptor/_discovery.py, lines 66-75 and 520-662). -/

def HEADER_INDEX : Nat := 0xFE

def EOF_INDEX : Nat := 0xFF

def FIRST_PART_INDEX : Nat := 0x00

def COMMAND_OFFSET : Nat := 8

def DEVICE_OFFSET : Nat := 6

def FIRST_PART_CONTENT_START : Nat := 9

def CONTINUATION_CONTENT_START : Nat := 2

def MIN_FINAL_MESSAGE_LENGTH : Nat := 20

/-- Per-request interceptor state (`_discovery.py`, lines 108-111):
`_current_request_buffer`, `_current_request_length` (initially `-1`),
`_current_command`, `_current_device` (initially `GENERAL = 2`). -/
structure InterceptorState where
  request_buffer : Option (List Nat)
  request_length : Int
  command : Option Nat
  device : Nat
  deriving DecidableEq

def initial_interceptor_state : InterceptorState := ⟨none, -1, none, 2⟩

/-- `_reset_request_state` (lines 658-662); `_current_request_length` is
not reset. -/
def reset_request_state (st : InterceptorState) : InterceptorState :=
  { st with request_buffer := none, command := none, device := 2 }

/-- `_process_message_fragment` (lines 553-601).  Direct out-of-range
indexing raises `IndexError`, modelled `none`; slice reads clamp. -/
def process_message_fragment (st : InterceptorState) (buffer : List Nat) :
    Option InterceptorState :=
  if buffer.length < 1 then none
  else
    let index := buffer.headI
    if index = HEADER_INDEX then
      if buffer.length ≤ 2 then none
      else some { st with request_length := (buffer.getD 2 0 : Int),
                          request_buffer := some [] }
    else if index = FIRST_PART_INDEX then
      if buffer.length ≤ COMMAND_OFFSET then none
      else
        let content_length := buffer.getD 1 0
        let content := (buffer.drop FIRST_PART_CONTENT_START).take content_length
        let base := st.request_buffer.getD []
        some { st with command := some (buffer.getD COMMAND_OFFSET 0),
                       device := buffer.getD DEVICE_OFFSET 0,
                       request_buffer := some (base ++ content) }
    else if index = EOF_INDEX then
      if (st.command = none ∨ st.command = some 0) ∧ buffer.length > COMMAND_OFFSET then
        some { st with command := some (buffer.getD COMMAND_OFFSET 0) }
      else some st
    else
      match st.request_buffer with
      | none => some st
      | some b =>
        if buffer.length ≤ 1 then none
        else
          let content_length := buffer.getD 1 0
          let content := (buffer.drop CONTINUATION_CONTENT_START).take content_length
          some { st with request_buffer := some (b ++ content) }

/-- `_is_complete_message` (lines 603-615). -/
def is_complete_message (index : Nat) (length : Nat) : Bool :=
  decide (index = EOF_INDEX) ||
    (decide (index = FIRST_PART_INDEX) && decide (length < MIN_FINAL_MESSAGE_LENGTH))

/-- Lowercase hex digit, as produced by Python `bytes.hex()`. -/
def hex_digit (n : Nat) : Char :=
  if n < 10 then Char.ofNat (48 + n) else Char.ofNat (87 + n)

/-- Python `bytes.hex()`: two lowercase hex digits per byte. -/
def bytes_hex (l : List Nat) : String :=
  String.mk (l.foldr (fun b acc => hex_digit (b / 16) :: hex_digit (b % 16) :: acc) [])

/-- Outcome of `_process_complete_request` (lines 617-656): the activation
code captured (when the command is ENABLE), the request forwarded to the
treadmill, and the state after `_reset_request_state`. -/
structure ForwardResult where
  activation_code : Option String
  forwarded_request : Option (List Nat)
  next_state : InterceptorState
  deriving DecidableEq

/-- `_process_complete_request`: a missing command discards the request;
otherwise the ENABLE payload hex is captured, and
`build_request(SportsEquipment(device), Command(command), payload)` is
re-framed and forwarded.  The enum constructors raise `ValueError` for a
device outside `{GENERAL = 2, TREADMILL = 4}` or a command that is not a
`Command` member; those paths are `none`. -/
def process_complete_request (st : InterceptorState) : Option ForwardResult :=
  match st.command with
  | none => some ⟨none, none, reset_request_state st⟩
  | some cmd =>
    let payload := st.request_buffer.getD []
    let act := if cmd = 0x90 then some (bytes_hex payload) else none
    if (st.device = 2 ∨ st.device = 4) ∧
        cmd ∈ ([0x02, 0x06, 0x80, 0x81, 0x82, 0x84, 0x88, 0x90, 0x95] : List Nat) then
      match build_request st.device cmd payload with
      | some req => some ⟨act, some req, reset_request_state st⟩
      | none => none
    else none

/-- `_handle_app_write` (lines 520-551) for one TX write: process the
fragment, then, when `_is_complete_message(buffer[0], len(buffer))`,
process the completed request. -/
def handle_app_write (st : InterceptorState) (value : List Nat) :
    Option (InterceptorState × Option ForwardResult) :=
  match process_message_fragment st value with
  | none => none
  | some st2 =>
    if is_complete_message value.headI value.length then
      match process_complete_request st2 with
      | none => none
      | some r => some (r.next_state, some r)
    else some (st2, none)

def forward_result_acts : Option ForwardResult → List String
  | some res => res.activation_code.toList
  | none => []

def forward_result_fwds : Option ForwardResult → List (List Nat)
  | some res => res.forwarded_request.toList
  | none => []

/-- Driver for a sequence of app→TX writes arriving in order, collecting
every captured activation code and every request forwarded to the
treadmill.  This is the composition claim C8 quantifies over. -/
def run_app_writes : InterceptorState → List (List Nat) →
    Option (InterceptorState × List String × List (List Nat))
  | st, [] => some (st, [], [])
  | st, v :: rest =>
    match handle_app_write st v with
    | none => none
    | some (st2, r) =>
      match run_app_writes st2 rest with
      | none => none
      | some (stf, acts, fwds) =>
        some (stf, forward_result_acts r ++ acts, forward_result_fwds r ++ fwds)

/-- C8 counterexample: when the first chunk is a padded 20-byte message
carrying the full 16-byte ENABLE request with length byte 16 (header
`FE 02 10 02`, then the chunk, then an EOF marker), the interceptor
captures `buffer[9:9+16]`, which clamps to 11 bytes: the 8-byte payload
plus the frame checksum `0x9A` and two padding zeros — not the hex of
exactly the 8-byte payload. -/
theorem interceptor_padded_first_chunk_captures_extra :
    run_app_writes initial_interceptor_state
      [[0xFE, 2, 16, 2],
       [0x00, 16, 2, 4, 2, 12, 4, 12, 0x90,
        0x07, 0x01, 0x62, 0x5C, 0x00, 0xE4, 0x3A, 0x16, 0x9A, 0, 0],
       [0xFF, 0]] =
      some (⟨none, 16, none, 2⟩,
        [bytes_hex [0x07, 0x01, 0x62, 0x5C, 0x00, 0xE4, 0x3A, 0x16, 0x9A, 0, 0]],
        [[2, 4, 2, 15, 4, 15, 0x90,
          0x07, 0x01, 0x62, 0x5C, 0x00, 0xE4, 0x3A, 0x16, 0x9A, 0, 0, 0x37]]) ∧
    bytes_hex [0x07, 0x01, 0x62, 0x5C, 0x00, 0xE4, 0x3A, 0x16, 0x9A, 0, 0] ≠
      bytes_hex [0x07, 0x01, 0x62, 0x5C, 0x00, 0xE4, 0x3A, 0x16] := by
  constructor
  · rfl
  · decide

/-- C8 amended: when the ENABLE request reaches the interceptor as a 0xFE
header, a 17-byte first chunk with index 0x00 and length byte 15 carrying
the first 15 request bytes (so device sits at byte 6 and command 0x90 at
byte 8, and the content slice `buffer[9:9+15]` clamps to exactly the 8-byte
payload), and a data-less EOF chunk, the interceptor records exactly the
hex string of the 8-byte ENABLE payload and forwards a freshly built
request frame with that same device, command and payload (completion fires
on the short first chunk; the trailing EOF is discarded). -/
theorem interceptor_captures_enable (d : Nat) (hd : d = 2 ∨ d = 4)
    (p : List Nat) (hlen : p.length = 8) (hbytes : ∀ b ∈ p, b ≤ 255) :
    run_app_writes initial_interceptor_state
      [[0xFE, 2, 16, 2], [0x00, 15, 2, 4, 2, 12, d, 12, 0x90] ++ p, [0xFF, 0]] =
      some (⟨none, 16, none, 2⟩, [bytes_hex p],
        [[2, 4, 2, 12, d, 12, 0x90] ++ p ++ [(d + 12 + 0x90 + p.sum) % 256]]) := by
  rcases p with _ | ⟨x1, p⟩
  · simp at hlen
  rcases p with _ | ⟨x2, p⟩
  · simp at hlen
  rcases p with _ | ⟨x3, p⟩
  · simp at hlen
  rcases p with _ | ⟨x4, p⟩
  · simp at hlen
  rcases p with _ | ⟨x5, p⟩
  · simp at hlen
  rcases p with _ | ⟨x6, p⟩
  · simp at hlen
  rcases p with _ | ⟨x7, p⟩
  · simp at hlen
  rcases p with _ | ⟨x8, p⟩
  · simp at hlen
  have hp : p = [] := by
    simp only [List.length_cons] at hlen
    have : p.length = 0 := by omega
    exact List.length_eq_zero.mp this
  subst hp
  have hb : ∀ b ∈ [x1, x2, x3, x4, x5, x6, x7, x8], b ≤ 255 := hbytes
  have hd255 : d ≤ 255 := by rcases hd with rfl | rfl <;> norm_num
  have hreq : build_request d 0x90 [x1, x2, x3, x4, x5, x6, x7, x8] =
      some ([2, 4, 2, 12, d, 12, 0x90] ++ [x1, x2, x3, x4, x5, x6, x7, x8] ++
        [(d + 12 + 0x90 + [x1, x2, x3, x4, x5, x6, x7, x8].sum) % 256]) := by
    simp only [build_request]
    rw [if_pos ⟨hd255, by norm_num, by norm_num, hb⟩]
    norm_num
  have h1 : handle_app_write initial_interceptor_state [0xFE, 2, 16, 2] =
      some (⟨some [], 16, none, 2⟩, none) := rfl
  have hfrag2 : process_message_fragment ⟨some [], 16, none, 2⟩
      ([0x00, 15, 2, 4, 2, 12, d, 12, 0x90] ++ [x1, x2, x3, x4, x5, x6, x7, x8]) =
      some ⟨some [x1, x2, x3, x4, x5, x6, x7, x8], 16, some 0x90, d⟩ := rfl
  have hcomp2 : process_complete_request
      ⟨some [x1, x2, x3, x4, x5, x6, x7, x8], 16, some 0x90, d⟩ =
      some ⟨some (bytes_hex [x1, x2, x3, x4, x5, x6, x7, x8]),
        some ([2, 4, 2, 12, d, 12, 0x90] ++ [x1, x2, x3, x4, x5, x6, x7, x8] ++
          [(d + 12 + 0x90 + [x1, x2, x3, x4, x5, x6, x7, x8].sum) % 256]),
        ⟨none, 16, none, 2⟩⟩ := by
    simp only [process_complete_request, reset_request_state]
    rw [if_pos ⟨hd, by norm_num⟩]
    simp only [Option.getD_some, if_true]
    rw [hreq]
  have h2 : handle_app_write ⟨some [], 16, none, 2⟩
      ([0x00, 15, 2, 4, 2, 12, d, 12, 0x90] ++ [x1, x2, x3, x4, x5, x6, x7, x8]) =
      some (⟨none, 16, none, 2⟩,
        some ⟨some (bytes_hex [x1, x2, x3, x4, x5, x6, x7, x8]),
          some ([2, 4, 2, 12, d, 12, 0x90] ++ [x1, x2, x3, x4, x5, x6, x7, x8] ++
            [(d + 12 + 0x90 + [x1, x2, x3, x4, x5, x6, x7, x8].sum) % 256]),
          ⟨none, 16, none, 2⟩⟩) := by
    simp only [handle_app_write, hfrag2]
    rw [if_pos (by rfl), hcomp2]
  have h3 : handle_app_write ⟨none, 16, none, 2⟩ [0xFF, 0] =
      some (⟨none, 16, none, 2⟩, some ⟨none, none, ⟨none, 16, none, 2⟩⟩) := rfl
  simp only [run_app_writes, h1, h2, h3, forward_result_acts, forward_result_fwds,
    Option.toList]
  simp

/-- Witness for C8 amended at the concrete activation payload
`0701625C00E43A16` and device TREADMILL. -/
theorem interceptor_captures_enable_witness :
    run_app_writes initial_interceptor_state
      [[0xFE, 2, 16, 2],
       [0x00, 15, 2, 4, 2, 12, 4, 12, 0x90] ++
         [0x07, 0x01, 0x62, 0x5C, 0x00, 0xE4, 0x3A, 0x16],
       [0xFF, 0]] =
      some (⟨none, 16, none, 2⟩,
        [bytes_hex [0x07, 0x01, 0x62, 0x5C, 0x00, 0xE4, 0x3A, 0x16]],
        [[2, 4, 2, 12, 4, 12, 0x90] ++
          [0x07, 0x01, 0x62, 0x5C, 0x00, 0xE4, 0x3A, 0x16] ++
          [(4 + 12 + 0x90 + [0x07, 0x01, 0x62, 0x5C, 0x00, 0xE4, 0x3A, 0x16].sum) %
            256]]) :=
  interceptor_captures_enable 4 (Or.inr rfl)
    [0x07, 0x01, 0x62, 0x5C, 0x00, 0xE4, 0x3A, 0x16] rfl (by decide)

end IFit
